import Mathlib

/-!
Verification of the work-distribution and filtering core of the
`scaui0/images` repository (files `main.py` and `test.py`).

The definitions below are shallow embeddings, translated from the Python
source: pure Python functions become Lean functions, Python slicing is
made explicit through `pySlice`, the filesystem effects of the job runner
are modelled as an explicit write log, and exceptions as `Except`.
-/

set_option autoImplicit false

universe u v

/-- Python slice `l[a:b]` for natural indices: clamps at the length and
returns `[]` when `b ≤ a`, exactly like Python list slicing. -/
def pySlice {α : Type u} (l : List α) (a b : Nat) : List α :=
  (l.drop a).take (b - a)

/-- `split_list` from `main.py` (lines 188-191):

    def split_list(input_list, x):
        k, m = divmod(len(input_list), x)
        return [input_list[i * k + min(i, m):(i + 1) * k + min(i + 1, m)]
                for i in range(x)]

`divmod(len, x)` is inlined: `k = length / x`, `m = length % x`. -/
def split_list {α : Type u} (input_list : List α) (x : Nat) : List (List α) :=
  (List.range x).map fun i =>
    pySlice input_list
      (i * (input_list.length / x) + min i (input_list.length % x))
      ((i + 1) * (input_list.length / x) + min (i + 1) (input_list.length % x))

/-- The largest accumulated batch cost of a partition (0 for no batches). -/
def max_batch_cost (batches : List (List Nat)) : Nat :=
  (batches.map List.sum).foldr max 0

/-- All ways to assign `n` jobs (by position) to one of `w` batches. -/
def allAssignments : Nat → Nat → List (List Nat)
  | 0, _ => [[]]
  | n + 1, w =>
      ((List.range w).map fun c => (allAssignments n w).map fun a => c :: a).flatten

/-- Total cost assigned to batch `j` by an assignment (position `p` of
`assignment` names the batch of the job at position `p` of `costs`). -/
def batchLoad (costs assignment : List Nat) (j : Nat) : Nat :=
  (((costs.zip assignment).filter fun p => p.2 == j).map Prod.fst).sum

/-- Makespan (largest batch load) of one assignment over `w` batches. -/
def makespanOf (costs assignment : List Nat) (w : Nat) : Nat :=
  ((List.range w).map (batchLoad costs assignment)).foldr max 0

/-- Brute-force optimal makespan over all assignments of the jobs to `w`
batches.  (The total cost is a correct base for the fold: every makespan
is at most the total, and for `w ≥ 1` the all-in-one assignment attains
it, so the base never affects the minimum for meaningful inputs.) -/
def optimalMakespan (costs : List Nat) (w : Nat) : Nat :=
  ((allAssignments costs.length w).map fun a => makespanOf costs a w).foldr
    min costs.sum

/-! ### Pixel filters (`main.py` lines 16-96)

Pixels are RGBA quadruples.  Python integers are modelled as `Int`
(Python `//` is floor division, `Int.fdiv`).  Each static method of the
`Filters` class becomes a function; the decorator-populated registry
`Filter.ALL` becomes an association list in registration order (Python
dicts preserve insertion order). -/

/-- An RGBA pixel, as produced by `Image.convert("RGBA")`. -/
def Pixel : Type := Int × Int × Int × Int

instance : DecidableEq Pixel := by
  unfold Pixel
  infer_instance

/-- The type of the registered filter functions: they take the four
channels unpacked (`filter_function(*pixel_color)`) and return a pixel.
The Python default `a=255` is never used by the executor, which always
passes all four channels of an RGBA pixel. -/
def PixelFn : Type := Int → Int → Int → Int → Pixel

namespace Filters

def without_red (r g b a : Int) : Pixel := (0, g, b, a)

def without_green (r g b a : Int) : Pixel := (r, 0, b, a)

def without_blue (r g b a : Int) : Pixel := (r, g, 0, a)

def white_black (r g b a : Int) : Pixel :=
  let median := (r + g + b).fdiv 3
  (median, median, median, a)

def only_red (r g b a : Int) : Pixel := (r, 0, 0, a)

def only_green (r g b a : Int) : Pixel := (0, g, 0, a)

def only_blue (r g b a : Int) : Pixel := (0, 0, b, a)

def in_three_steps (r g b a : Int) : Pixel :=
  (if r < 80 then 0 else if r < 160 then 140 else 255,
   if g < 80 then 0 else if g < 160 then 140 else 255,
   if b < 80 then 0 else if b < 160 then 140 else 255,
   if a < 80 then 0 else if a < 160 then 140 else 255)

def invert (r g b a : Int) : Pixel := (255 - r, 255 - g, 255 - b, a)

def original (r g b a : Int) : Pixel := (r, g, b, a)

end Filters

/-- The `Filter.ALL` registry: each `@Filter("NAME")` decoration inserts
`(NAME, function)` in source order. -/
def Filter.ALL : List (String × PixelFn) :=
  [("WITHOUT_RED", Filters.without_red),
   ("WITHOUT_GREEN", Filters.without_green),
   ("WITHOUT_BLUE", Filters.without_blue),
   ("WHITE_BLACK", Filters.white_black),
   ("ONLY_RED", Filters.only_red),
   ("ONLY_GREEN", Filters.only_green),
   ("ONLY_BLUE", Filters.only_blue),
   ("IN_THREE_STEPS", Filters.in_three_steps),
   ("INVERT", Filters.invert),
   ("ORIGINAL", Filters.original)]

/-- An image as a grid of RGBA pixels. -/
def Image : Type := List (List Pixel)

instance : DecidableEq Image := by
  unfold Image
  infer_instance

/-- `filter_image` from `main.py` (lines 16-26): applies
`filter_function(*pixel_color)` at every coordinate.  Each coordinate is
read exactly once before being written, so the in-place loop
(`copy_image=False`) and the copying loop compute the same grid; the
`copy_image` flag is therefore irrelevant to the result and kept only to
mirror the signature. -/
def filter_image (image : Image) (filter_function : PixelFn)
    (copy_image : Bool := true) : Image :=
  image.map fun row => row.map fun p => filter_function p.1 p.2.1 p.2.2.1 p.2.2.2

/-- A channel value admissible in an 8-bit RGBA image. -/
def inRange (v : Int) : Prop := 0 ≤ v ∧ v ≤ 255

/-- All four channels of a pixel are admissible. -/
def pixelInRange (p : Pixel) : Prop :=
  inRange p.1 ∧ inRange p.2.1 ∧ inRange p.2.2.1 ∧ inRange p.2.2.2

/-! ### Jobs, outcomes and the worker pipeline (`main.py` lines 99-172, 318-338)

The filesystem and PIL are external collaborators; a `SourceItem` records,
for one source path, what they would answer: whether the path is a
directory, the result of `try_opening_image` (`none` on any of its caught
failures: unsupported mode, missing file, unidentified image, permission
denied), the result of `read_bytes`, and the result of
`read_text(encoding=...)` under the run's encoding.  File writes are
collected in an explicit log, and a Python exception escaping
`filter_and_save` is an `Except.error`. -/

/-- A filesystem path, as a list of parts (mirrors `pathlib` joining). -/
structure FPath where
  parts : List String
deriving DecidableEq

/-- `p / q` on paths. -/
def FPath.joinPath (p q : FPath) : FPath := ⟨p.parts ++ q.parts⟩

/-- `Path.with_suffix`: replace the (final) suffix of the last component.
Modelled for ordinary names (`stem.ext` or `stem`); the hidden-file corner
case of `pathlib` is not needed by any claim. -/
def FPath.withSuffix (p : FPath) (suffix : String) : FPath :=
  match p.parts.getLast? with
  | none => ⟨[suffix]⟩
  | some lastPart =>
    let stem :=
      match lastPart.splitOn "." with
      | [] => lastPart
      | [onlyPart] => onlyPart
      | moreParts => String.intercalate "." moreParts.dropLast
    ⟨p.parts.dropLast ++ [stem ++ suffix]⟩

/-- What `read_text` does under the run's encoding: succeeds, raises
`UnicodeDecodeError` (caught by `filter_and_save`), or raises another
`OSError` (not caught). -/
inductive ReadTextResult
  | ok (s : String)
  | unicodeError
  | ioError
deriving DecidableEq

/-- One source path together with the answers the filesystem/PIL layer
gives for it. -/
structure SourceItem where
  isDir : Bool
  /-- `Path.suffix` of the source path. -/
  suffix : String
  /-- `Path.stem` of the source path (used as the outcome's image name). -/
  stem : String
  /-- Result of `try_opening_image`: the decoded RGBA image, or `none`
  when decoding failed for any of the caught reasons. -/
  decoded : Option Image
  /-- Result of `Path.read_bytes`: file content, or `none` when it raises. -/
  readBytes : Option (List Nat)
  /-- Result of `Path.read_text` under the run's encoding. -/
  readText : ReadTextResult

/-- Content written to a destination file. -/
inductive FileData
  | bytes (bs : List Nat)
  /-- The result of `Template(source).safe_substitute(...)` with the three
  filter-name tokens; kept symbolic since no claim inspects the text. -/
  | templated (source : String) (filter_name : String)
  | image (img : Image)

/-- The `OtherFileActions` enum of `main.py` (lines 194-197). -/
inductive OtherFileActions
  | template
  | dont_copy
  | copy
deriving DecidableEq

/-- A Python exception escaping `filter_and_save` (e.g. `read_bytes` or
`read_text` raising on the copy/template path). -/
inductive RunError
  | uncaught
deriving DecidableEq

/-- A job outcome triple `(filter_name-or-action, image_name, succeeded)`
exactly as returned by `filter_and_save`. -/
def Outcome : Type := String × String × Bool

instance : DecidableEq Outcome := by
  unfold Outcome
  infer_instance

/-- `filter_and_save` from `main.py` (lines 113-151), with the write log
made explicit.  `encoding_for_other_files` only influences the run through
`SourceItem.readText`, which already records the read under that encoding. -/
def filter_and_save (image_path : SourceItem) (image_filter : Option PixelFn)
    (path_to_save : Option FPath) (filter_name image_name : String)
    (other_files : OtherFileActions) (encoding_for_other_files : Option String) :
    List (FPath × FileData) × Except RunError Outcome :=
  match image_path.decoded with
  | none =>
    match other_files with
    | .copy =>
      match path_to_save, image_path.readBytes with
      | some p, some bs =>
          ([(p.withSuffix image_path.suffix, .bytes bs)],
           .ok ("COPIED", image_name, true))
      | _, _ => ([], .error .uncaught)
    | .template =>
      match path_to_save, image_path.readText with
      | some p, .ok s =>
          ([(p.withSuffix image_path.suffix, .templated s filter_name)],
           .ok ("TEMPLATED", image_name, true))
      | some _, .unicodeError => ([], .ok ("TEMPLATED", image_name, false))
      | _, _ => ([], .error .uncaught)
    | .dont_copy => ([], .ok (filter_name, image_name, false))
  | some image =>
    let filtered_image :=
      match image_filter with
      | none => image
      | some f => filter_image image f false
    match path_to_save with
    | some p => ([(p.withSuffix ".png", .image filtered_image)],
                 .ok (filter_name, image_name, true))
    | none => ([], .ok (filter_name, image_name, true))

/-- One entry of `task_arguments` as built by `main` (lines 291-313). -/
structure TaskArg where
  image_path : SourceItem
  image_filters : List (String × Option PixelFn)
  path_to_save : FPath
  sort_by_filter : Bool
  path_extension : FPath

/-- The inner `for filter_name, image_filter in image_filters.items()` loop
of `filter_and_save_multiple` for a single task argument.  A raise aborts
the rest of the loop (already-performed writes stay in the log). -/
def fasm_filters (image_path : SourceItem)
    (image_filters : List (String × Option PixelFn)) (path_to_save : FPath)
    (sort_by_filter : Bool) (path_extension : FPath)
    (other_files : OtherFileActions) (encoding_for_other_files : Option String) :
    List (FPath × FileData) × Except RunError (List Outcome) :=
  match image_filters with
  | [] => ([], .ok [])
  | (filter_name, image_filter) :: rest =>
    if image_path.isDir then
      fasm_filters image_path rest path_to_save sort_by_filter path_extension
        other_files encoding_for_other_files
    else
      let end_path_to_save :=
        if sort_by_filter then
          (path_to_save.joinPath ⟨[filter_name.toLower]⟩).joinPath path_extension
        else
          path_to_save.joinPath ⟨[filter_name.toLower ++ ".png"]⟩
      match filter_and_save image_path image_filter (some end_path_to_save)
          filter_name image_path.stem other_files encoding_for_other_files with
      | (w, .error e) => (w, .error e)
      | (w, .ok o) =>
        match fasm_filters image_path rest path_to_save sort_by_filter
            path_extension other_files encoding_for_other_files with
        | (w2, .error e) => (w ++ w2, .error e)
        | (w2, .ok os) => (w ++ w2, .ok (o :: os))

/-- `filter_and_save_multiple` from `main.py` (lines 154-172): runs the
jobs of one batch strictly sequentially, collecting each job's outcome. -/
def filter_and_save_multiple (args : List TaskArg)
    (other_files : OtherFileActions) (encoding_for_other_files : Option String) :
    List (FPath × FileData) × Except RunError (List Outcome) :=
  match args with
  | [] => ([], .ok [])
  | a :: rest =>
    match fasm_filters a.image_path a.image_filters a.path_to_save
        a.sort_by_filter a.path_extension other_files encoding_for_other_files with
    | (w, .error e) => (w, .error e)
    | (w, .ok os) =>
      match filter_and_save_multiple rest other_files encoding_for_other_files with
      | (w2, .error e) => (w ++ w2, .error e)
      | (w2, .ok os2) => (w ++ w2, .ok (os ++ os2))

/-- The dispatch step of `main` (lines 318-338): `split_list` the task
arguments into `max_processes` chunks and submit one
`filter_and_save_multiple` future per non-empty chunk.  The list order is
submission order; the aggregation loop consumes futures in completion
order, which permutes this list but cannot change any count. -/
def run_jobs (task_arguments : List TaskArg) (max_processes : Nat)
    (other_files : OtherFileActions) (encoding_for_other_files : Option String) :
    List (List (FPath × FileData) × Except RunError (List Outcome)) :=
  ((split_list task_arguments max_processes).filter fun chunk => !chunk.isEmpty).map
    fun chunk => filter_and_save_multiple chunk other_files encoding_for_other_files

/-- Total number of outcomes a run delivers (a future that raised
delivers none: `future.result()` re-raises in the aggregation loop). -/
def outcome_count
    (results : List (List (FPath × FileData) × Except RunError (List Outcome))) :
    Nat :=
  (results.map fun r => (r.2.toOption.getD []).length).sum

/-- Number of job descriptors (path × filter pairs) in a task list. -/
def descriptor_count (args : List TaskArg) : Nat :=
  (args.map fun a => a.image_filters.length).sum

/-- Number of job descriptors whose source is not a directory: exactly
the jobs that `filter_and_save_multiple` does not silently skip. -/
def job_count (args : List TaskArg) : Nat :=
  (args.map fun a => if a.image_path.isDir then 0 else a.image_filters.length).sum

/-- The outcome `filter_and_save` reports for a job under the
`dont_copy` policy: failed when decoding failed, successful otherwise. -/
def expected_outcomes (args : List TaskArg) : List Outcome :=
  (args.map fun a =>
    if a.image_path.isDir then []
    else a.image_filters.map fun nf =>
      (nf.1, a.image_path.stem, a.image_path.decoded.isSome)).flatten

/-- Sample source item: a readable non-image file (`notes.txt`). -/
def sampleFileItem : SourceItem :=
  { isDir := false, suffix := ".txt", stem := "notes", decoded := none,
    readBytes := some [104, 105], readText := .ok "hi" }

/-- Sample source item: a subdirectory encountered by `rglob("*")`. -/
def sampleDirItem : SourceItem :=
  { isDir := true, suffix := "", stem := "sub", decoded := none,
    readBytes := none, readText := .ioError }

def sampleOutPath : FPath := ⟨["out"]⟩

/-- A task argument for the sample file under the INVERT filter. -/
def sampleFileArg : TaskArg :=
  { image_path := sampleFileItem,
    image_filters := [("INVERT", some Filters.invert)],
    path_to_save := sampleOutPath, sort_by_filter := false,
    path_extension := ⟨[]⟩ }

/-- A task argument for the sample directory under the INVERT filter. -/
def sampleDirArg : TaskArg :=
  { image_path := sampleDirItem,
    image_filters := [("INVERT", some Filters.invert)],
    path_to_save := sampleOutPath, sort_by_filter := false,
    path_extension := ⟨[]⟩ }

section SplitListLemmas

variable {α : Type u} {β : Type v}

lemma split_list_length (l : List α) (x : Nat) :
    (split_list l x).length = x := by
  simp [split_list]

/-- Concatenating the first `j` slices produced by `split_list`'s slicing
scheme recovers the first `j * k + min j m` elements of the list. -/
lemma split_list_join_aux (l : List α) (k m j : Nat) :
    ((List.range j).map (fun i =>
        pySlice l (i * k + min i m) ((i + 1) * k + min (i + 1) m))).flatten
      = l.take (j * k + min j m) := by
  induction j with
  | zero => simp
  | succ n ih =>
    rw [List.range_succ, List.map_append, List.flatten_append, ih]
    have hmul : (n + 1) * k = n * k + k := Nat.succ_mul n k
    have hle : n * k + min n m ≤ (n + 1) * k + min (n + 1) m := by
      rw [hmul]; omega
    have hsum : (n * k + min n m)
        + ((n + 1) * k + min (n + 1) m - (n * k + min n m))
        = (n + 1) * k + min (n + 1) m := by
      rw [hmul] at hle ⊢; omega
    simp only [List.map_cons, List.map_nil, List.flatten_cons, List.flatten_nil,
      List.append_nil, pySlice]
    rw [← List.take_add, hsum]

lemma split_list_join (l : List α) (x : Nat) (hx : 1 ≤ x) :
    (split_list l x).flatten = l := by
  have hmod : l.length % x < x := Nat.mod_lt _ hx
  rw [split_list, split_list_join_aux]
  have : x * (l.length / x) + min x (l.length % x) = l.length := by
    have hdm := Nat.div_add_mod l.length x
    omega
  rw [this, List.take_length]

lemma split_list_map (f : α → β) (l : List α) (x : Nat) :
    split_list (l.map f) x = (split_list l x).map (List.map f) := by
  simp only [split_list, List.map_map, List.length_map]
  apply List.map_congr_left
  intro i _
  simp [pySlice, Function.comp, List.map_take, List.map_drop]

lemma split_list_mem_sublist (l : List α) (x : Nat) (b : List α)
    (hb : b ∈ split_list l x) : b.Sublist l := by
  simp only [split_list, List.mem_map, List.mem_range] at hb
  obtain ⟨i, _, rfl⟩ := hb
  exact ((List.take_sublist _ _).trans (List.drop_sublist _ _))

lemma slice_length_aux (llen x i k m : Nat) (hi : i < x)
    (hxk : x * k + m = llen) :
    min ((i + 1) * k + min (i + 1) m - (i * k + min i m)) (llen - (i * k + min i m))
      = if i < m then k + 1 else k := by
  have hmul : (i + 1) * k = i * k + k := Nat.succ_mul i k
  have hik : i * k + k ≤ x * k := by
    have h2 : (i + 1) * k ≤ x * k := Nat.mul_le_mul hi (Nat.le_refl k)
    rw [hmul] at h2; exact h2
  rw [hmul]
  by_cases him : i < m
  · rw [if_pos him, Nat.min_eq_left (Nat.le_of_lt him), Nat.min_eq_left him]
    omega
  · have hmi : m ≤ i := Nat.le_of_not_lt him
    rw [if_neg him, Nat.min_eq_right hmi, Nat.min_eq_right (Nat.le_succ_of_le hmi)]
    omega

/-- The length of the `i`-th slice: `k + 1` for the first `m` slices,
`k` afterwards (where `k = length / x`, `m = length % x`). -/
lemma split_list_getD_length (l : List α) (x i : Nat) (hi : i < x) :
    ((split_list l x).getD i []).length
      = if i < l.length % x then l.length / x + 1 else l.length / x := by
  have hgetD : (split_list l x).getD i []
      = pySlice l (i * (l.length / x) + min i (l.length % x))
          ((i + 1) * (l.length / x) + min (i + 1) (l.length % x)) := by
    rw [split_list]
    rw [List.getD_eq_getElem?_getD, List.getElem?_map,
      List.getElem?_range hi]
    rfl
  rw [hgetD, pySlice, List.length_take, List.length_drop]
  exact slice_length_aux l.length x i (l.length / x) (l.length % x) hi
    (Nat.div_add_mod l.length x)

end SplitListLemmas
section OptimalMakespanLemmas

lemma allAssignments_one (n : Nat) :
    allAssignments n 1 = [List.replicate n 0] := by
  induction n with
  | zero => rfl
  | succ k ih => simp [allAssignments, ih, List.replicate_succ, List.range_succ]

lemma batchLoad_replicate_zero (costs : List Nat) :
    batchLoad costs (List.replicate costs.length 0) 0 = costs.sum := by
  induction costs with
  | nil => rfl
  | cons c cs ih =>
    simp only [List.length_cons, List.replicate_succ, batchLoad,
      List.zip_cons_cons, List.filter_cons] at *
    simpa using ih

lemma optimalMakespan_one (costs : List Nat) :
    optimalMakespan costs 1 = costs.sum := by
  rw [optimalMakespan, allAssignments_one]
  simp [makespanOf, batchLoad_replicate_zero, List.range_succ]

lemma split_list_one (l : List Nat) : split_list l 1 = [l] := by
  simp [split_list, List.range_succ, pySlice]

lemma max_batch_cost_one (l : List Nat) :
    max_batch_cost (split_list l 1) = l.sum := by
  rw [split_list_one]
  simp [max_batch_cost]

end OptimalMakespanLemmas

lemma fdiv_three_range (x : Int) (h0 : 0 ≤ x) (h1 : x ≤ 765) :
    0 ≤ x.fdiv 3 ∧ x.fdiv 3 ≤ 255 := by
  rw [Int.fdiv_eq_ediv x (by norm_num)]
  omega

section RunnerLemmas

/-- Under the `dont_copy` policy no exception can escape a batch: every
job of a non-directory source reports `(name, stem, decoded succeeded)`,
directory sources are skipped without an outcome. -/
lemma fasm_filters_dont_copy (src : SourceItem)
    (filters : List (String × Option PixelFn)) (p : FPath) (sbf : Bool)
    (ext : FPath) (enc : Option String) :
    (fasm_filters src filters p sbf ext .dont_copy enc).2
      = .ok (if src.isDir then []
             else filters.map fun nf => (nf.1, src.stem, src.decoded.isSome)) := by
  induction filters with
  | nil => cases hdir : src.isDir <;> simp [fasm_filters, hdir]
  | cons nf rest ih =>
    obtain ⟨fname, ffun⟩ := nf
    rcases hrec : fasm_filters src rest p sbf ext .dont_copy enc with ⟨w2, r2⟩
    rw [hrec] at ih
    by_cases hdir : src.isDir
    · simp only [fasm_filters, hdir, if_pos, hrec]
      simpa [hdir] using ih
    · cases hdec : src.decoded with
      | none =>
        simp only [hdir, hdec, Option.isSome_none, Bool.false_eq_true, if_false] at ih
        subst ih
        simp [fasm_filters, hdir, filter_and_save, hdec, hrec]
      | some img =>
        simp only [hdir, hdec, Option.isSome_some, Bool.false_eq_true, if_false] at ih
        subst ih
        simp [fasm_filters, hdir, filter_and_save, hdec, hrec]

/-- Whenever a batch finishes without raising — under any policy — it
reports exactly one outcome per job whose source is not a directory. -/
lemma fasm_filters_ok_length (src : SourceItem)
    (filters : List (String × Option PixelFn)) (p : FPath) (sbf : Bool)
    (ext : FPath) (of : OtherFileActions) (enc : Option String)
    (os : List Outcome)
    (h : (fasm_filters src filters p sbf ext of enc).2 = .ok os) :
    os.length = if src.isDir then 0 else filters.length := by
  induction filters generalizing os with
  | nil =>
    simp only [fasm_filters] at h
    cases h
    cases src.isDir <;> simp
  | cons nf rest ih =>
    obtain ⟨fname, ffun⟩ := nf
    by_cases hdir : src.isDir
    · rw [if_pos hdir]
      have := ih os ?_
      · rw [if_pos hdir] at this
        exact this
      · simpa [fasm_filters, hdir] using h
    · rw [if_neg hdir]
      rcases hfas : filter_and_save src ffun
          (some (if sbf then (p.joinPath ⟨[fname.toLower]⟩).joinPath ext
                 else p.joinPath ⟨[fname.toLower ++ ".png"]⟩))
          fname src.stem of enc with ⟨w, r⟩
      cases r with
      | error e =>
        rw [fasm_filters, if_neg hdir] at h
        simp only [hfas] at h
        cases h
      | ok o =>
        rcases hrec : fasm_filters src rest p sbf ext of enc with ⟨w2, r2⟩
        cases r2 with
        | error e =>
          rw [fasm_filters, if_neg hdir] at h
          simp only [hfas, hrec] at h
          cases h
        | ok os2 =>
          rw [fasm_filters, if_neg hdir] at h
          simp only [hfas, hrec] at h
          cases h
          have := ih os2 (by rw [hrec])
          rw [if_neg hdir] at this
          simp [this]

/-- `filter_and_save_multiple` under `dont_copy` delivers exactly the
expected outcome of every non-directory job, in batch order. -/
lemma fasm_dont_copy (args : List TaskArg) (enc : Option String) :
    (filter_and_save_multiple args .dont_copy enc).2
      = .ok (expected_outcomes args) := by
  induction args with
  | nil => simp [filter_and_save_multiple, expected_outcomes]
  | cons a rest ih =>
    rcases hrec : filter_and_save_multiple rest .dont_copy enc with ⟨w2, r2⟩
    rw [hrec] at ih
    have h1 := fasm_filters_dont_copy a.image_path a.image_filters a.path_to_save
      a.sort_by_filter a.path_extension enc
    rcases hfas : fasm_filters a.image_path a.image_filters a.path_to_save
        a.sort_by_filter a.path_extension .dont_copy enc with ⟨w1, r1⟩
    rw [hfas] at h1
    simp only [filter_and_save_multiple, hfas, hrec]
    simp only at h1
    subst h1
    simp only at ih
    subst ih
    simp [expected_outcomes]

/-- A batch that finishes without raising — under any policy — reports
one outcome per non-directory job of the batch. -/
lemma fasm_ok_length (args : List TaskArg) (of : OtherFileActions)
    (enc : Option String) (os : List Outcome)
    (h : (filter_and_save_multiple args of enc).2 = .ok os) :
    os.length = job_count args := by
  induction args generalizing os with
  | nil =>
    simp only [filter_and_save_multiple] at h
    cases h
    simp [job_count]
  | cons a rest ih =>
    rcases hfas : fasm_filters a.image_path a.image_filters a.path_to_save
        a.sort_by_filter a.path_extension of enc with ⟨w1, r1⟩
    cases r1 with
    | error e =>
      rw [filter_and_save_multiple] at h
      simp only [hfas] at h
      cases h
    | ok os1 =>
      rcases hrec : filter_and_save_multiple rest of enc with ⟨w2, r2⟩
      cases r2 with
      | error e =>
        rw [filter_and_save_multiple] at h
        simp only [hfas, hrec] at h
        cases h
      | ok os2 =>
        rw [filter_and_save_multiple] at h
        simp only [hfas, hrec] at h
        cases h
        have hl1 := fasm_filters_ok_length a.image_path a.image_filters
          a.path_to_save a.sort_by_filter a.path_extension of enc os1 (by rw [hfas])
        have hl2 := ih os2 (by rw [hrec])
        simp [job_count, List.length_append, hl1, hl2]

lemma job_count_append (l1 l2 : List TaskArg) :
    job_count (l1 ++ l2) = job_count l1 + job_count l2 := by
  simp [job_count]

lemma job_count_flatten (chunks : List (List TaskArg)) :
    job_count chunks.flatten = (chunks.map job_count).sum := by
  induction chunks with
  | nil => simp [job_count]
  | cons c rest ih => simp [job_count_append, ih]

lemma job_count_filter_nonempty (chunks : List (List TaskArg)) :
    ((chunks.filter fun c => !c.isEmpty).map job_count).sum
      = (chunks.map job_count).sum := by
  induction chunks with
  | nil => simp
  | cons c rest ih =>
    cases hc : c with
    | nil => simpa [List.filter, job_count] using ih
    | cons a t => simp [List.filter, ih]

end RunnerLemmas

lemma except_ok_of_isSome {ε α : Type} (r : Except ε α)
    (h : r.toOption.isSome = true) : ∃ a, r = .ok a := by
  cases r with
  | error e => simp [Except.toOption] at h
  | ok a => exact ⟨a, rfl⟩

lemma outcome_count_ok_chunks (chunks : List (List TaskArg))
    (of : OtherFileActions) (enc : Option String)
    (h : ∀ c ∈ chunks, ∃ os, (filter_and_save_multiple c of enc).2 = .ok os) :
    outcome_count (chunks.map fun c => filter_and_save_multiple c of enc)
      = (chunks.map job_count).sum := by
  induction chunks with
  | nil => simp [outcome_count]
  | cons c rest ih =>
    obtain ⟨os, hos⟩ := h c (List.mem_cons_self c rest)
    have hrest := ih fun d hd => h d (List.mem_cons_of_mem c hd)
    have hlen := fasm_ok_length c of enc os hos
    have hhead : ((filter_and_save_multiple c of enc).2.toOption.getD []).length
        = job_count c := by
      rw [hos]
      simpa [Except.toOption] using hlen
    simp only [List.map_cons, outcome_count, List.sum_cons] at hrest ⊢
    rw [hhead, hrest]

/-! ### Claim theorems -/

/-- C1, counterexample.  The partitioner used by `main` is `split_list`,
and on 5 jobs with costs `[10, 1, 1, 1, 1]` and 2 workers it yields the
contiguous batches `[10, 1, 1]` and `[1, 1]` with cost sums 12 and 2 —
not the claimed sums 10 and 4 (in either batch order). -/
theorem C1_counterexample :
    (split_list [10, 1, 1, 1, 1] 2).map List.sum = [12, 2]
    ∧ (split_list [10, 1, 1, 1, 1] 2).map List.sum ≠ [10, 4]
    ∧ (split_list [10, 1, 1, 1, 1] 2).map List.sum ≠ [4, 10] := by
  decide

/-- C1, amended.  The partitioner assigns jobs to batches purely by
position — contiguous, near-equal-length slices in input order, never
reading a cost — so `[10, 1, 1, 1, 1]` over 2 workers becomes
`[[10, 1, 1], [1, 1]]` with cost sums 12 and 2; relabelling job costs
commutes with partitioning, showing no cost influences the assignment. -/
theorem C1_amended_positional_partition :
    split_list [10, 1, 1, 1, 1] 2 = [[10, 1, 1], [1, 1]]
    ∧ (split_list [10, 1, 1, 1, 1] 2).map List.sum = [12, 2]
    ∧ ∀ (l : List Nat) (f : Nat → Nat) (x : Nat),
        split_list (l.map f) x = (split_list l x).map (List.map f) :=
  ⟨by decide, by decide, fun l f x => split_list_map f l x⟩

/-- C2.  For every job list and every worker count `≥ 1`, `split_list`
returns exactly `workerCount` batches whose concatenation is the input
list itself — so the job multiset is preserved exactly, with no loss and
no duplication (batches may be empty when there are fewer jobs). -/
theorem C2_partition_count_and_union {α : Type u} (jobs : List α)
    (workerCount : Nat) (h : 1 ≤ workerCount) :
    (split_list jobs workerCount).length = workerCount
    ∧ (split_list jobs workerCount).flatten = jobs :=
  ⟨split_list_length jobs workerCount, split_list_join jobs workerCount h⟩

/-- C2, witness at jobs `[5, 7]` and three workers. -/
theorem C2_witness :
    (split_list ([5, 7] : List Nat) 3).length = 3
    ∧ (split_list ([5, 7] : List Nat) 3).flatten = [5, 7] :=
  C2_partition_count_and_union [5, 7] 3 (by decide)

/-- C3, counterexample.  For costs `[10, 1, 1, 1, 1]` and 2 workers the
partitioner reaches a maximum batch cost of 12 while the optimal makespan
is 10, and `12 > 10 * (4/3 - 1/(3*2))`, so the claimed LPT quality bound
fails on the code's positional partitioner. -/
theorem C3_counterexample :
    ¬ ((max_batch_cost (split_list [10, 1, 1, 1, 1] 2) : ℚ)
        ≤ (optimalMakespan [10, 1, 1, 1, 1] 2 : ℚ) * (4 / 3 - 1 / (3 * 2))) := by
  have h1 : max_batch_cost (split_list [10, 1, 1, 1, 1] 2) = 12 := by decide
  have h2 : optimalMakespan [10, 1, 1, 1, 1] 2 = 10 := by decide
  rw [h1, h2]
  norm_num

/-- C3, amended.  The `4/3 - 1/(3W)` bound survives only degenerately at
`workerCount = 1`, where the single batch's accumulated cost equals the
optimal makespan (the factor is then exactly 1). -/
theorem C3_amended_bound_single_worker (costs : List Nat) :
    (max_batch_cost (split_list costs 1) : ℚ)
      ≤ (optimalMakespan costs 1 : ℚ) * (4 / 3 - 1 / (3 * 1)) := by
  rw [max_batch_cost_one, optimalMakespan_one]
  norm_num

/-- C4.  Partitioning is a pure function of the input list and the worker
count: it commutes with any relabelling of job attributes (so nothing but
the list positions influences the output, and identical inputs trivially
give identical outputs), and every batch is a sublist of the input, so
jobs — in particular jobs of equal estimated cost — stay in stable input
order inside their batch. -/
theorem C4_determinism_stable_order {α : Type u} {β : Type v} (f : α → β)
    (jobs : List α) (x : Nat) :
    split_list (jobs.map f) x = (split_list jobs x).map (List.map f)
    ∧ ∀ b ∈ split_list jobs x, b.Sublist jobs :=
  ⟨split_list_map f jobs x, fun b hb => split_list_mem_sublist jobs x b hb⟩

/-- C4, witness: relabelling commutes on `[1, 2, 3]` with two workers,
and the first batch `[1, 2]` is a sublist of the input. -/
theorem C4_witness :
    split_list ([1, 2, 3].map Nat.succ) 2
      = (split_list [1, 2, 3] 2).map (List.map Nat.succ)
    ∧ List.Sublist [1, 2] [1, 2, 3] :=
  ⟨(C4_determinism_stable_order Nat.succ [1, 2, 3] 2).1,
   (C4_determinism_stable_order Nat.succ [1, 2, 3] 2).2 [1, 2] (by decide)⟩

/-- C5, counterexample.  A job descriptor whose source path is a
directory (as produced for every subdirectory met by `rglob("*")`) is
silently skipped by `filter_and_save_multiple` (`continue`), so a run
over one directory descriptor delivers 0 outcomes for 1 input job. -/
theorem C5_counterexample :
    outcome_count (run_jobs [sampleDirArg] 1 OtherFileActions.dont_copy none) = 0
    ∧ descriptor_count [sampleDirArg] = 1
    ∧ outcome_count (run_jobs [sampleDirArg] 1 OtherFileActions.dont_copy none)
        ≠ descriptor_count [sampleDirArg] := by
  refine ⟨rfl, rfl, ?_⟩
  decide

/-- C5, amended.  In every run in which no worker raises an uncaught
exception (the skip policy never raises; copy/template raise only on
unreadable sources), the number of delivered outcomes equals the number
of input job descriptors whose source is not a directory — independent of
the worker count; descriptors for directory sources yield no outcome. -/
theorem C5_amended_outcome_count (args : List TaskArg) (workerCount : Nat)
    (of : OtherFileActions) (enc : Option String) (hw : 1 ≤ workerCount)
    (hok : ((run_jobs args workerCount of enc).all
        fun r => r.2.toOption.isSome) = true) :
    outcome_count (run_jobs args workerCount of enc) = job_count args := by
  have hchunks : ∀ c ∈ (split_list args workerCount).filter (fun c => !c.isEmpty),
      ∃ os, (filter_and_save_multiple c of enc).2 = .ok os := by
    intro c hc
    have hmem : filter_and_save_multiple c of enc
        ∈ run_jobs args workerCount of enc := by
      rw [run_jobs]
      exact List.mem_map_of_mem _ hc
    exact except_ok_of_isSome _ (List.all_eq_true.mp hok _ hmem)
  rw [run_jobs, outcome_count_ok_chunks _ of enc hchunks,
    job_count_filter_nonempty, ← job_count_flatten,
    split_list_join args workerCount hw]

/-- C5, witness: one readable non-directory job over two workers delivers
exactly one outcome. -/
theorem C5_witness :
    outcome_count (run_jobs [sampleFileArg] 2 OtherFileActions.dont_copy none)
      = job_count [sampleFileArg] :=
  C5_amended_outcome_count [sampleFileArg] 2 OtherFileActions.dont_copy none
    (by decide) (by decide)

/-- C6, counterexample.  Under the `copy` policy a job whose source fails
to decode but is readable does not report `succeeded = false`: it is
copied and reports the successful outcome `("COPIED", name, true)`. -/
theorem C6_counterexample :
    (filter_and_save sampleFileItem none (some sampleOutPath) "INVERT" "notes"
        OtherFileActions.copy none).2 = .ok ("COPIED", "notes", true)
    ∧ ¬ ∃ lbl nm, (filter_and_save sampleFileItem none (some sampleOutPath)
        "INVERT" "notes" OtherFileActions.copy none).2 = .ok (lbl, nm, false) := by
  constructor
  · rfl
  · rintro ⟨lbl, nm, h⟩
    have h0 : (filter_and_save sampleFileItem none (some sampleOutPath) "INVERT"
        "notes" OtherFileActions.copy none).2
        = .ok (("COPIED", "notes", true) : Outcome) := rfl
    rw [h0] at h
    have h2 := Except.ok.inj h
    exact Bool.noConfusion (congrArg (fun t : Outcome => t.2.2) h2)

/-- C6, amended.  Under the skip (`dont_copy`) policy the claim holds: a
decode failure makes exactly that job report `succeeded = false`, no
exception can escape, and every other (non-directory) job of the batch
still runs and reports its own outcome — the batch result is exactly one
outcome per non-directory job, in order, successful precisely when its
source decoded.  Under the copy/template policies a decode-failed job may
instead report success (copied/templated) or raise. -/
theorem C6_amended_skip_policy_outcomes (args : List TaskArg)
    (enc : Option String) :
    (filter_and_save_multiple args OtherFileActions.dont_copy enc).2
      = .ok (expected_outcomes args) :=
  fasm_dont_copy args enc

/-- C7.  For a job whose source does not decode as an image but whose
bytes are readable: the skip (`dont_copy`) policy reports
`(filter_name, image_name, false)` and writes nothing, while the `copy`
policy writes exactly one destination file holding the source's bytes
unchanged and reports the successful outcome `("COPIED", image_name, true)`. -/
theorem C7_non_image_skip_and_copy (src : SourceItem)
    (image_filter : Option PixelFn) (p : FPath) (filter_name image_name : String)
    (enc : Option String) (bs : List Nat)
    (hdec : src.decoded = none) (hbs : src.readBytes = some bs) :
    filter_and_save src image_filter (some p) filter_name image_name
        OtherFileActions.dont_copy enc
      = ([], .ok (filter_name, image_name, false))
    ∧ filter_and_save src image_filter (some p) filter_name image_name
        OtherFileActions.copy enc
      = ([(p.withSuffix src.suffix, .bytes bs)], .ok ("COPIED", image_name, true)) := by
  constructor <;> simp [filter_and_save, hdec, hbs]

/-- C7, witness at the sample non-image file `notes.txt`. -/
theorem C7_witness :
    filter_and_save sampleFileItem none (some sampleOutPath) "INVERT" "notes"
        OtherFileActions.dont_copy none
      = ([], .ok ("INVERT", "notes", false))
    ∧ filter_and_save sampleFileItem none (some sampleOutPath) "INVERT" "notes"
        OtherFileActions.copy none
      = ([(sampleOutPath.withSuffix sampleFileItem.suffix, .bytes [104, 105])],
         .ok ("COPIED", "notes", true)) :=
  C7_non_image_skip_and_copy sampleFileItem none sampleOutPath "INVERT" "notes"
    none [104, 105] rfl rfl

/-- C8.  The WHITE_BLACK filter replaces all three color channels by the
floor average `(r + g + b) // 3` and keeps alpha; on the 2-by-1 image with
pixels `(200, 10, 10, 255)` and `(10, 10, 200, 255)` it produces
`(73, 73, 73, 255)` twice. -/
theorem C8_white_black_average :
    filter_image [[(200, 10, 10, 255), (10, 10, 200, 255)]] Filters.white_black false
      = [[(73, 73, 73, 255), (73, 73, 73, 255)]]
    ∧ ∀ r g b a : Int, Filters.white_black r g b a
        = ((r + g + b).fdiv 3, (r + g + b).fdiv 3, (r + g + b).fdiv 3, a) :=
  ⟨by decide, fun r g b a => rfl⟩

/-- C9.  `split_list L x` (for `x ≥ 1`) returns exactly `x` contiguous
slices concatenating back to `L`; slice `i` has length
`len / x + 1` for the first `len % x` slices and `len / x` afterwards (so
lengths differ by at most one), and the assignment is positional only:
relabelling the elements commutes with splitting. -/
theorem C9_split_list_positional (L : List Nat) (x : Nat) (hx : 1 ≤ x) :
    (split_list L x).length = x
    ∧ (split_list L x).flatten = L
    ∧ (∀ i, i < x → ((split_list L x).getD i []).length
        = if i < L.length % x then L.length / x + 1 else L.length / x)
    ∧ ∀ f : Nat → Nat, split_list (L.map f) x = (split_list L x).map (List.map f) :=
  ⟨split_list_length L x, split_list_join L x hx,
   fun i hi => split_list_getD_length L x i hi,
   fun f => split_list_map f L x⟩

/-- C9, witness at `[1, 2, 3, 4, 5]` and two workers: two slices of
lengths 3 and 2 concatenating to the input. -/
theorem C9_witness :
    (split_list [1, 2, 3, 4, 5] 2).length = 2
    ∧ (split_list [1, 2, 3, 4, 5] 2).flatten = [1, 2, 3, 4, 5]
    ∧ ((split_list [1, 2, 3, 4, 5] 2).getD 0 []).length = 3
    ∧ ((split_list [1, 2, 3, 4, 5] 2).getD 1 []).length = 2 := by
  have h := C9_split_list_positional [1, 2, 3, 4, 5] 2 (by decide)
  refine ⟨h.1, h.2.1, ?_, ?_⟩
  · have h0 := h.2.2.1 0 (by decide)
    simpa using h0
  · have h1 := h.2.2.1 1 (by decide)
    simpa using h1

/-- C10.  Every filter registered in `Filter.ALL`, applied to a pixel
whose four channels lie in `0..255`, yields a pixel whose four channels
lie in `0..255`; and every registered filter except IN_THREE_STEPS
returns the alpha channel unchanged. -/
theorem C10_filters_preserve_range (nf : String × PixelFn)
    (hmem : nf ∈ Filter.ALL) (r g b a : Int)
    (hr : inRange r) (hg : inRange g) (hb : inRange b) (ha : inRange a) :
    pixelInRange (nf.2 r g b a)
    ∧ (nf.1 ≠ "IN_THREE_STEPS" → (nf.2 r g b a).2.2.2 = a) := by
  obtain ⟨hr0, hr1⟩ := hr
  obtain ⟨hg0, hg1⟩ := hg
  obtain ⟨hb0, hb1⟩ := hb
  obtain ⟨ha0, ha1⟩ := ha
  fin_cases hmem
  · refine ⟨?_, fun _ => rfl⟩
    simp only [pixelInRange, inRange, Filters.without_red]
    omega
  · refine ⟨?_, fun _ => rfl⟩
    simp only [pixelInRange, inRange, Filters.without_green]
    omega
  · refine ⟨?_, fun _ => rfl⟩
    simp only [pixelInRange, inRange, Filters.without_blue]
    omega
  · refine ⟨?_, fun _ => rfl⟩
    have hm := fdiv_three_range (r + g + b) (by omega) (by omega)
    exact ⟨⟨hm.1, hm.2⟩, ⟨hm.1, hm.2⟩, ⟨hm.1, hm.2⟩, ha0, ha1⟩
  · refine ⟨?_, fun _ => rfl⟩
    simp only [pixelInRange, inRange, Filters.only_red]
    omega
  · refine ⟨?_, fun _ => rfl⟩
    simp only [pixelInRange, inRange, Filters.only_green]
    omega
  · refine ⟨?_, fun _ => rfl⟩
    simp only [pixelInRange, inRange, Filters.only_blue]
    omega
  · refine ⟨?_, fun hne => absurd rfl hne⟩
    simp only [pixelInRange, inRange, Filters.in_three_steps]
    refine ⟨?_, ?_, ?_, ?_⟩ <;> split_ifs <;> norm_num
  · refine ⟨?_, fun _ => rfl⟩
    simp only [pixelInRange, inRange, Filters.invert]
    omega
  · refine ⟨?_, fun _ => rfl⟩
    simp only [pixelInRange, inRange, Filters.original]
    omega

/-- C10, witness: the WHITE_BLACK filter on pixel `(200, 10, 10, 255)`
stays in range and preserves alpha. -/
theorem C10_witness :
    pixelInRange (Filters.white_black 200 10 10 255)
    ∧ (Filters.white_black 200 10 10 255).2.2.2 = 255 := by
  have hmem : (("WHITE_BLACK", Filters.white_black) : String × PixelFn)
      ∈ Filter.ALL :=
    List.Mem.tail _ (List.Mem.tail _ (List.Mem.tail _ (List.Mem.head _)))
  have h := C10_filters_preserve_range ("WHITE_BLACK", Filters.white_black) hmem
    200 10 10 255 (by constructor <;> norm_num) (by constructor <;> norm_num)
    (by constructor <;> norm_num) (by constructor <;> norm_num)
  exact ⟨h.1, h.2 (by decide)⟩
